import Mathlib

/-!
Shallow embedding of the Doctoralia phone extractor (`src/newday.py`) and
verification of the spec claims against it.

The embedding covers:
* `clean_phone` — the pure phone normalizer (`DoctoraliaPhoneExtractor.clean_phone`);
* the per-profile widget loop of `extract_phones`, over an abstract page model
  (widgets, reveal overlays, the three candidate tiers, the `\d{2}\s?\d{4}\s?\d{4}`
  free-text scan) with an event trace recording reveal actions;
* the row loop of `process_excel_file` (URL prefixing, blank-URL sentinel,
  checkpoint saves every 10 processed rows, final save), with a call log
  recording which rows are handed to the extraction engine.
-/

/-- The digit-only projection of a string: Python `re.sub(r'\D', '', text)`.
(ASCII digits; the inputs of interest are ASCII.) -/
def digitsOf (s : String) : List Char :=
  s.toList.filter (fun c => c.isDigit)

/-- `DoctoraliaPhoneExtractor.clean_phone` (newday.py lines 74-87):
strip non-digits; if exactly 10 digits remain, format as
`f"{digits[:2]} {digits[2:6]} {digits[6:]}"`; otherwise `None`. -/
def clean_phone (text : String) : Option String :=
  let digits := digitsOf text
  if digits.length = 10 then
    some (String.mk (digits.take 2 ++ ' ' :: ((digits.drop 2).take 4 ++ ' ' :: digits.drop 6)))
  else
    none

/-- Spec-side pattern check: does the string match `\d{2} \d{4} \d{4}` exactly
(two digits, a space, four digits, a space, four digits)? Stated from the
spec's words, for comparison with `clean_phone`'s output. -/
def matchesCanonical (s : String) : Bool :=
  match s.toList with
  | [a, b, ' ', c, d, e, f, ' ', g, h, i, j] =>
    a.isDigit && b.isDigit && c.isDigit && d.isDigit && e.isDigit && f.isDigit &&
      g.isDigit && h.isDigit && i.isDigit && j.isDigit
  | _ => false

/-! ### The free-text scan `re.findall(r'\d{2}\s?\d{4}\s?\d{4}', modal_text)` -/

/-- Python `\s` over the ASCII range: space, tab, newline, carriage return,
vertical tab, form feed. -/
def isSpaceChar (c : Char) : Bool :=
  c = ' ' || c = '\t' || c = '\n' || c = '\r' || c = '\x0b' || c = '\x0c'

/-- Match exactly `n` digit characters at the front of `cs`, returning the
digits and the remaining characters (`\d{n}`). -/
def takeDigits : Nat → List Char → Option (List Char × List Char)
  | 0, cs => some ([], cs)
  | _ + 1, [] => none
  | n + 1, c :: cs =>
    if c.isDigit then
      match takeDigits n cs with
      | some (ds, rest) => some (c :: ds, rest)
      | none => none
    else
      none

/-- Greedily match an optional whitespace character (`\s?`). Greedy matching
without backtracking agrees with the regex here: if the consumed whitespace
makes the following `\d{4}` fail, the backtracking alternative would require
that same whitespace character to be a digit, which also fails. -/
def optSpace : List Char → List Char × List Char
  | [] => ([], [])
  | c :: cs => if isSpaceChar c then ([c], cs) else ([], c :: cs)

/-- Match `\d{2}\s?\d{4}\s?\d{4}` at the front of `cs`, returning the matched
characters and the rest. -/
def matchPat (cs : List Char) : Option (List Char × List Char) :=
  match takeDigits 2 cs with
  | none => none
  | some (d1, r1) =>
    let s1 := optSpace r1
    match takeDigits 4 s1.2 with
    | none => none
    | some (d2, r2) =>
      let s2 := optSpace r2
      match takeDigits 4 s2.2 with
      | none => none
      | some (d3, r3) => some (d1 ++ s1.1 ++ d2 ++ s2.1 ++ d3, r3)

/-- Scan worker for `findall`, structurally recursive on a fuel argument.
Each step consumes at least one character, so fuel equal to the scanned
list's length is always sufficient. -/
def findallAux : Nat → List Char → List String
  | 0, _ => []
  | _ + 1, [] => []
  | fuel + 1, c :: cs =>
    match matchPat (c :: cs) with
    | some (m, rest) => String.mk m :: findallAux fuel rest
    | none => findallAux fuel cs

/-- `re.findall` of the pattern over the text: scan left to right, emit
non-overlapping matches, resume after each match. -/
def findall (cs : List Char) : List String :=
  findallAux cs.length cs

/-! ### Page model for `extract_phones` (newday.py lines 89-228) -/

/-- Python `str.strip()`: drop leading and trailing whitespace. -/
def strip (s : String) : String :=
  String.mk (((s.toList.dropWhile Char.isWhitespace).reverse.dropWhile Char.isWhitespace).reverse)

/-- Python `href.replace('tel:', '')`: delete every occurrence of the literal
`tel:`, scanning left to right. -/
def replaceTel : List Char → List Char
  | 't' :: 'e' :: 'l' :: ':' :: rest => replaceTel rest
  | c :: rest => c :: replaceTel rest
  | [] => []

/-- Does `pat` occur as a contiguous run inside the list? -/
def containsSeq (pat : List Char) : List Char → Bool
  | [] => pat.isEmpty
  | c :: cs => pat.isPrefixOf (c :: cs) || containsSeq pat cs

/-- `"..." in partial_number`: the displayed text contains the truncation
marker. -/
def hasEllipsis (s : String) : Bool :=
  containsSeq "...".toList s.toList

/-- The content of a revealed overlay (modal), as the three places the code
reads candidates from: `a[href^="tel:"]` hrefs, `b, strong` element texts, and
the overlay's full text. -/
structure Overlay where
  telHrefs : List String
  boldTexts : List String
  modalText : String
deriving DecidableEq

/-- One phone widget (`[data-id="gdpr-show-number-block"]` container).
`broken` models a container whose inner elements cannot be located
(`NoSuchElementException`, caught and skipped). For an `ok` widget,
`shownText` is the `span[data-id="shrinked-number"]` text and `modal` is the
outcome of the reveal action when one is attempted: `some o` means the modal
appeared with content `o`, `none` means the bounded wait timed out
(`TimeoutException`, the ModalResolver's NotFound). -/
inductive Widget
  | broken
  | ok (shownText : String) (modal : Option Overlay)
deriving DecidableEq

/-- Observable page actions of the engine, recorded for the temporal claims:
locating the reveal trigger (`[data-id="show-phone-number-modal"]`),
activating it (the scripted click), and an overlay actually opening. -/
inductive Event
  | locateTrigger
  | activateTrigger
  | overlayOpened
deriving DecidableEq

/-- Candidate strings of the tel-link tier:
`link.get_attribute('href').replace('tel:', '').strip()`. -/
def telCands (o : Overlay) : List String :=
  o.telHrefs.map (fun h => strip (String.mk (replaceTel h.toList)))

/-- Candidate strings of the bold-text tier: `elem.text.strip()`. -/
def boldCands (o : Overlay) : List String :=
  o.boldTexts.map strip

/-- Candidate strings of the free-text tier:
`re.findall(r'\d{2}\s?\d{4}\s?\d{4}', modal_text)`. -/
def textCands (o : Overlay) : List String :=
  findall o.modalText.toList

/-- One tier's scan: walk the candidates in order; the first one that
normalizes to a phone not already accumulated wins (`break`); candidates that
are rejected by `clean_phone`, or normalize to an already-extracted phone, are
skipped. -/
def tierScan (acc : List String) : List String → Option String
  | [] => none
  | c :: cs =>
    match clean_phone c with
    | some p => if p ∈ acc then tierScan acc cs else some p
    | none => tierScan acc cs

/-- The three-tier candidate extraction inside a revealed overlay
(newday.py lines 148-179): tel links first, then bold text, then the
free-text scan; the first tier that yields a phone appends it and the later
tiers are not consulted (`phone_extracted`). -/
def overlayExtract (acc : List String) (o : Overlay) : List String :=
  match tierScan acc (telCands o) with
  | some p => acc ++ [p]
  | none =>
    match tierScan acc (boldCands o) with
    | some p => acc ++ [p]
    | none =>
      match tierScan acc (textCands o) with
      | some p => acc ++ [p]
      | none => acc

/-- `if cleaned and cleaned not in extracted_phones: extracted_phones.append(cleaned)`. -/
def addIfNew (acc : List String) (c : String) : List String :=
  if c ∈ acc then acc else acc ++ [c]

/-- Processing of one widget (the body of the container loop, lines 108-213):
returns the new accumulated list and the reveal-related events performed.
A `broken` widget contributes nothing. For an `ok` widget, the stripped
displayed text decides the path: with a truncation marker the trigger is
located and activated, and if the modal appears its content goes through the
three tiers; without a marker the displayed text is normalized directly. -/
def processWidget (acc : List String) : Widget → List String × List Event
  | .broken => (acc, [])
  | .ok shownText modal =>
    let shown := strip shownText
    if hasEllipsis shown then
      match modal with
      | none => (acc, [.locateTrigger, .activateTrigger])
      | some o => (overlayExtract acc o, [.locateTrigger, .activateTrigger, .overlayOpened])
    else
      match clean_phone shown with
      | some c => (addIfNew acc c, [])
      | none => (acc, [])

/-- The widget loop (lines 108-213): stop as soon as two phones are
accumulated (`if len(extracted_phones) >= 2: break`); otherwise process the
next widget. Returns the accumulated phones and, widget by widget, the events
performed for each widget (widgets skipped by the break get `[]`). -/
def extractLoopTr : List Widget → List String → List String × List (List Event)
  | [], acc => (acc, [])
  | w :: ws, acc =>
    if 2 ≤ acc.length then
      (acc, List.replicate (ws.length + 1) [])
    else
      let step := processWidget acc w
      let rest := extractLoopTr ws step.1
      (rest.1, step.2 :: rest.2)

/-- `extract_phones` over the page model: run the widget loop starting from
the empty list and return `extracted_phones[:2]`. -/
def extract_phones (ws : List Widget) : List String :=
  (extractLoopTr ws []).1.take 2

/-! ### Row loop of `process_excel_file` (newday.py lines 230-293) -/

/-- One dataset row: the URL cell (`none` models a NaN/missing cell), the two
phone columns, and the remaining cells of the row. -/
structure Row where
  url : Option String
  phone1 : String
  phone2 : String
  others : List String
deriving DecidableEq

/-- Outcome of handing one row to the extraction engine: the phones returned
by `extract_phones` (which swallows its own errors), or an exception escaping
the row's `try` body, caught at line 280. -/
inductive RowOutcome
  | phones (ps : List String)
  | err (msg : String)

/-- `pd.isna(profile_url) or not profile_url`: a missing cell or an empty
string counts as no URL. -/
def isBlankUrl : Option String → Bool
  | none => true
  | some s => s = ""

/-- `profile_url.startswith('http')`. -/
def startsHttp (u : String) : Bool :=
  "http".toList.isPrefixOf u.toList

/-- The URL handed to the engine (lines 263-264): values starting with
`http` pass unchanged; anything else gets its leading `/` characters removed
(`lstrip('/')`) and is prefixed with `https://`. -/
def navUrl (u : String) : String :=
  if startsHttp u then u
  else "https://" ++ String.mk (u.toList.dropWhile (fun c => c = '/'))

/-- Replace the element at position `i` (if any) by `f` applied to it. -/
def updateAt : List Row → Nat → (Row → Row) → List Row
  | [], _, _ => []
  | r :: rs, 0, f => f r :: rs
  | r :: rs, n + 1, f => r :: updateAt rs n f

/-- State of one run of the row loop: the dataset, `processed_count`, the
snapshots written by `df.to_excel` so far, and a log of the engine calls made
(`(row index, URL passed)`). -/
structure RunState where
  df : List Row
  processed : Nat
  saves : List (List Row)
  calls : List (Nat × String)
deriving DecidableEq

/-- `phones[0] if phones else "No phone found"` (line 268). -/
def phone1Of : List String → String
  | [] => "No phone found"
  | p :: _ => p

/-- `phones[1] if len(phones) > 1 else ""` (line 269). -/
def phone2Of : List String → String
  | _ :: q :: _ => q
  | _ => ""

/-- The body of the row loop for index `i` (lines 254-283).
A blank URL writes the `"No URL"` sentinel into Phone1 and continues without
consulting the engine. Otherwise the engine is called on `navUrl u`; a phone
list writes Phone1/Phone2, bumps `processed_count` and saves the dataset when
the count reaches a multiple of 10; an exception caught at the row boundary
writes the error sentinel into Phone1 only. -/
def stepRow (fetch : Nat → String → RowOutcome) (st : RunState) (i : Nat) : RunState :=
  match st.df.get? i with
  | none => st
  | some row =>
    if isBlankUrl row.url then
      { st with df := updateAt st.df i (fun r => { r with phone1 := "No URL" }) }
    else
      match row.url with
      | none => st
      | some u =>
        let nav := navUrl u
        match fetch i nav with
        | .err m =>
          { st with
            df := updateAt st.df i (fun r => { r with phone1 := "Error: " ++ m }),
            calls := st.calls ++ [(i, nav)] }
        | .phones ps =>
          let df1 := updateAt st.df i
            (fun r => { r with phone1 := phone1Of ps, phone2 := phone2Of ps })
          let pc := st.processed + 1
          { df := df1,
            processed := pc,
            saves := if pc % 10 = 0 then st.saves ++ [df1] else st.saves,
            calls := st.calls ++ [(i, nav)] }

/-- Run the row loop over a list of row indices. -/
def runRows (fetch : Nat → String → RowOutcome) : List Nat → RunState → RunState
  | [], st => st
  | i :: is, st => runRows fetch is (stepRow fetch st i)

/-- `end_index = min(len(df), start_index + max_rows) if max_rows else len(df)`
(line 252); `max_rows = None` and `max_rows = 0` are both falsy. -/
def endIndex (n start_index : Nat) : Option Nat → Nat
  | none => n
  | some m => if m = 0 then n else min n (start_index + m)

/-- `process_excel_file(start_row, max_rows)` over the row-loop model: an
empty dataset returns immediately; otherwise the loop runs over
`range(start_index, end_index)` with `start_index = start_row - 1`, and the
dataset is saved once more after the loop (line 285). The engine and any
per-row exception are abstracted by the `fetch` oracle. -/
def process_excel_file (fetch : Nat → String → RowOutcome) (df0 : List Row)
    (start_row : Nat) (max_rows : Option Nat) : RunState :=
  if df0.isEmpty then ⟨df0, 0, [], []⟩
  else
    let s := start_row - 1
    let e := endIndex df0.length s max_rows
    let st := runRows fetch (List.range' s (e - s)) ⟨df0, 0, [], []⟩
    { st with saves := st.saves ++ [st.df] }

/-! ## Lemmas about `updateAt`, `stepRow` and `runRows` -/

theorem updateAt_length : ∀ (df : List Row) (i : Nat) (f : Row → Row),
    (updateAt df i f).length = df.length := by
  intro df
  induction df with
  | nil => intro i f; rfl
  | cons r rs ih =>
    intro i f
    match i with
    | 0 => rfl
    | n + 1 => simp [updateAt, ih]

theorem updateAt_get?_eq : ∀ (df : List Row) (i : Nat) (f : Row → Row),
    (updateAt df i f).get? i = (df.get? i).map f := by
  intro df
  induction df with
  | nil => intro i f; simp [updateAt]
  | cons r rs ih =>
    intro i f
    match i with
    | 0 => rfl
    | n + 1 => simpa [updateAt] using ih n f

theorem updateAt_get?_ne : ∀ (df : List Row) (i j : Nat) (f : Row → Row), j ≠ i →
    (updateAt df i f).get? j = df.get? j := by
  intro df
  induction df with
  | nil => intro i j f _; simp [updateAt]
  | cons r rs ih =>
    intro i j f h
    match i, j with
    | 0, 0 => exact absurd rfl h
    | 0, j + 1 => rfl
    | i + 1, 0 => rfl
    | i + 1, j + 1 =>
      simpa [updateAt] using ih i j f (by omega)

theorem updateAt_id : ∀ (df : List Row) (i : Nat), updateAt df i (fun r => r) = df := by
  intro df
  induction df with
  | nil => intro i; rfl
  | cons r rs ih =>
    intro i
    match i with
    | 0 => rfl
    | n + 1 => simp [updateAt, ih]

theorem stepRow_of_none (fetch : Nat → String → RowOutcome) (st : RunState) (i : Nat)
    (h0 : st.df.get? i = none) : stepRow fetch st i = st := by
  unfold stepRow
  rw [h0]

theorem stepRow_of_blank (fetch : Nat → String → RowOutcome) (st : RunState) (i : Nat)
    (row : Row) (h0 : st.df.get? i = some row) (hb : isBlankUrl row.url = true) :
    stepRow fetch st i =
      { st with df := updateAt st.df i (fun r => { r with phone1 := "No URL" }) } := by
  unfold stepRow
  rw [h0]
  simp only [hb, if_true]

theorem stepRow_of_err (fetch : Nat → String → RowOutcome) (st : RunState) (i : Nat)
    (row : Row) (u : String) (m : String) (h0 : st.df.get? i = some row)
    (h1 : row.url = some u) (hu : u ≠ "") (h2 : fetch i (navUrl u) = .err m) :
    stepRow fetch st i =
      { st with
        df := updateAt st.df i (fun r => { r with phone1 := "Error: " ++ m }),
        calls := st.calls ++ [(i, navUrl u)] } := by
  have hb : isBlankUrl row.url = false := by simp [h1, isBlankUrl, hu]
  unfold stepRow
  rw [h0]
  simp only [hb, Bool.false_eq_true, if_false]
  rw [h1]
  simp only [h2]

theorem stepRow_of_phones (fetch : Nat → String → RowOutcome) (st : RunState) (i : Nat)
    (row : Row) (u : String) (ps : List String) (h0 : st.df.get? i = some row)
    (h1 : row.url = some u) (hu : u ≠ "") (h2 : fetch i (navUrl u) = .phones ps) :
    stepRow fetch st i =
      { df := updateAt st.df i
          (fun r => { r with phone1 := phone1Of ps, phone2 := phone2Of ps }),
        processed := st.processed + 1,
        saves :=
          if (st.processed + 1) % 10 = 0 then
            st.saves ++ [updateAt st.df i
              (fun r => { r with phone1 := phone1Of ps, phone2 := phone2Of ps })]
          else st.saves,
        calls := st.calls ++ [(i, navUrl u)] } := by
  have hb : isBlankUrl row.url = false := by simp [h1, isBlankUrl, hu]
  unfold stepRow
  rw [h0]
  simp only [hb, Bool.false_eq_true, if_false]
  rw [h1]
  simp only [h2]

/-- Case split over the four `stepRow` branches, packaged for reuse. -/
theorem stepRow_branches (fetch : Nat → String → RowOutcome) (st : RunState) (i : Nat) :
    stepRow fetch st i = st ∨
    (∃ row, st.df.get? i = some row ∧ isBlankUrl row.url = true ∧
      stepRow fetch st i =
        { st with df := updateAt st.df i (fun r => { r with phone1 := "No URL" }) }) ∨
    (∃ row u m, st.df.get? i = some row ∧ row.url = some u ∧ u ≠ "" ∧
      stepRow fetch st i =
        { st with
          df := updateAt st.df i (fun r => { r with phone1 := "Error: " ++ m }),
          calls := st.calls ++ [(i, navUrl u)] }) ∨
    (∃ row u ps, st.df.get? i = some row ∧ row.url = some u ∧ u ≠ "" ∧
      stepRow fetch st i =
        { df := updateAt st.df i
            (fun r => { r with phone1 := phone1Of ps, phone2 := phone2Of ps }),
          processed := st.processed + 1,
          saves :=
            if (st.processed + 1) % 10 = 0 then
              st.saves ++ [updateAt st.df i
                (fun r => { r with phone1 := phone1Of ps, phone2 := phone2Of ps })]
            else st.saves,
          calls := st.calls ++ [(i, navUrl u)] }) := by
  rcases h0 : st.df.get? i with _ | row
  · exact Or.inl (stepRow_of_none fetch st i h0)
  · by_cases hb : isBlankUrl row.url = true
    · exact Or.inr (Or.inl ⟨row, rfl, hb, stepRow_of_blank fetch st i row h0 hb⟩)
    · rcases h1 : row.url with _ | u
      · exact absurd (by rw [h1]; rfl) hb
      · have hu : u ≠ "" := by
          intro he
          exact hb (by rw [h1, he]; rfl)
        rcases h2 : fetch i (navUrl u) with ps | m
        · exact Or.inr (Or.inr (Or.inr ⟨row, u, ps, rfl, h1, hu,
            stepRow_of_phones fetch st i row u ps h0 h1 hu h2⟩))
        · exact Or.inr (Or.inr (Or.inl ⟨row, u, m, rfl, h1, hu,
            stepRow_of_err fetch st i row u m h0 h1 hu h2⟩))

/-- Every branch of `stepRow` rewrites the dataset at row `i` only, touching
just the phone columns, and appends at most one engine call, indexed `i`. -/
theorem stepRow_shape (fetch : Nat → String → RowOutcome) (st : RunState) (i : Nat) :
    (∃ f : Row → Row, (∀ r : Row, (f r).url = r.url ∧ (f r).others = r.others) ∧
      (stepRow fetch st i).df = updateAt st.df i f) ∧
    ((stepRow fetch st i).calls = st.calls ∨
      ∃ u, (stepRow fetch st i).calls = st.calls ++ [(i, u)]) := by
  rcases stepRow_branches fetch st i with h | ⟨row, _, _, h⟩ |
    ⟨row, u, m, _, _, _, h⟩ | ⟨row, u, ps, _, _, _, h⟩ <;> rw [h]
  · exact ⟨⟨fun r => r, fun r => ⟨rfl, rfl⟩, (updateAt_id st.df i).symm⟩, Or.inl rfl⟩
  · exact ⟨⟨fun r => { r with phone1 := "No URL" }, fun r => ⟨rfl, rfl⟩, rfl⟩,
      Or.inl rfl⟩
  · exact ⟨⟨fun r => { r with phone1 := "Error: " ++ m }, fun r => ⟨rfl, rfl⟩, rfl⟩,
      Or.inr ⟨navUrl u, rfl⟩⟩
  · exact ⟨⟨fun r => { r with phone1 := phone1Of ps, phone2 := phone2Of ps },
      fun r => ⟨rfl, rfl⟩, rfl⟩, Or.inr ⟨navUrl u, rfl⟩⟩

theorem stepRow_get?_ne (fetch : Nat → String → RowOutcome) (st : RunState) (i j : Nat)
    (h : j ≠ i) : (stepRow fetch st i).df.get? j = st.df.get? j := by
  obtain ⟨⟨f, _, hdf⟩, _⟩ := stepRow_shape fetch st i
  rw [hdf, updateAt_get?_ne st.df i j f h]

theorem stepRow_frame (fetch : Nat → String → RowOutcome) (st : RunState) (i j : Nat)
    (row : Row) (h : st.df.get? j = some row) :
    ∃ row', (stepRow fetch st i).df.get? j = some row' ∧
      row'.url = row.url ∧ row'.others = row.others := by
  obtain ⟨⟨f, hf, hdf⟩, _⟩ := stepRow_shape fetch st i
  by_cases hij : j = i
  · subst hij
    refine ⟨f row, ?_, (hf row).1, (hf row).2⟩
    rw [hdf, updateAt_get?_eq st.df j f, h]
    rfl
  · exact ⟨row, by rw [hdf, updateAt_get?_ne st.df i j f hij, h], rfl, rfl⟩

theorem stepRow_calls_ne (fetch : Nat → String → RowOutcome) (st : RunState) (i j : Nat)
    (u : String) (hij : j ≠ i) (h : (j, u) ∈ (stepRow fetch st i).calls) :
    (j, u) ∈ st.calls := by
  obtain ⟨_, hc | ⟨v, hc⟩⟩ := stepRow_shape fetch st i
  · rwa [hc] at h
  · rw [hc] at h
    rcases List.mem_append.mp h with h | h
    · exact h
    · simp at h
      exact absurd h.1 hij

theorem stepRow_saves_inv (fetch : Nat → String → RowOutcome) (st : RunState) (i : Nat)
    (h : st.saves.length = st.processed / 10) :
    (stepRow fetch st i).saves.length = (stepRow fetch st i).processed / 10 := by
  rcases stepRow_branches fetch st i with hb | ⟨row, _, _, hb⟩ |
    ⟨row, u, m, _, _, _, hb⟩ | ⟨row, u, ps, _, _, _, hb⟩ <;> rw [hb]
  · exact h
  · exact h
  · exact h
  · by_cases hm : (st.processed + 1) % 10 = 0
    · simp only [hm, if_true, List.length_append, List.length_cons, List.length_nil]
      omega
    · simp only [hm, if_false]
      omega

theorem runRows_get?_ne (fetch : Nat → String → RowOutcome) (j : Nat) :
    ∀ (l : List Nat) (st : RunState), (∀ k ∈ l, k ≠ j) →
      (runRows fetch l st).df.get? j = st.df.get? j := by
  intro l
  induction l with
  | nil => intro st _; rfl
  | cons k l ih =>
    intro st h
    have hk : j ≠ k := fun he => h k (by simp) he.symm
    calc (runRows fetch l (stepRow fetch st k)).df.get? j
        = (stepRow fetch st k).df.get? j := ih _ (fun x hx => h x (by simp [hx]))
      _ = st.df.get? j := stepRow_get?_ne fetch st k j hk

theorem runRows_frame (fetch : Nat → String → RowOutcome) (j : Nat) :
    ∀ (l : List Nat) (st : RunState) (row : Row), st.df.get? j = some row →
      ∃ row', (runRows fetch l st).df.get? j = some row' ∧
        row'.url = row.url ∧ row'.others = row.others := by
  intro l
  induction l with
  | nil => intro st row h; exact ⟨row, h, rfl, rfl⟩
  | cons k l ih =>
    intro st row h
    obtain ⟨row1, h1, h2, h3⟩ := stepRow_frame fetch st k j row h
    obtain ⟨row', h4, h5, h6⟩ := ih (stepRow fetch st k) row1 h1
    exact ⟨row', h4, h5.trans h2, h6.trans h3⟩

theorem runRows_calls_ne (fetch : Nat → String → RowOutcome) (j : Nat) :
    ∀ (l : List Nat) (st : RunState) (u : String), (∀ k ∈ l, k ≠ j) →
      (j, u) ∈ (runRows fetch l st).calls → (j, u) ∈ st.calls := by
  intro l
  induction l with
  | nil => intro st u _ h; exact h
  | cons k l ih =>
    intro st u h hm
    have hk : j ≠ k := fun he => h k (by simp) he.symm
    exact stepRow_calls_ne fetch st k j u hk
      (ih (stepRow fetch st k) u (fun x hx => h x (by simp [hx])) hm)

theorem runRows_saves_inv (fetch : Nat → String → RowOutcome) :
    ∀ (l : List Nat) (st : RunState), st.saves.length = st.processed / 10 →
      (runRows fetch l st).saves.length = (runRows fetch l st).processed / 10 := by
  intro l
  induction l with
  | nil => intro st h; exact h
  | cons k l ih => intro st h; exact ih _ (stepRow_saves_inv fetch st k h)

/-- A row whose URL cell is blank keeps its URL, Phone2 and other columns
through any run of the row loop; its Phone1 cell is set to the `"No URL"`
sentinel exactly when its index is visited; and the engine is never called on
its index. -/
theorem runRows_blank (fetch : Nat → String → RowOutcome) (j : Nat) :
    ∀ (l : List Nat) (st : RunState) (row : Row),
      st.df.get? j = some row → isBlankUrl row.url = true →
      (∀ u, (j, u) ∉ st.calls) →
      ∃ row', (runRows fetch l st).df.get? j = some row' ∧
        row'.url = row.url ∧ row'.phone2 = row.phone2 ∧ row'.others = row.others ∧
        (j ∈ l → row'.phone1 = "No URL") ∧ (j ∉ l → row'.phone1 = row.phone1) ∧
        ∀ u, (j, u) ∉ (runRows fetch l st).calls := by
  intro l
  induction l with
  | nil =>
    intro st row h1 h2 h3
    exact ⟨row, h1, rfl, rfl, rfl, by simp, fun _ => rfl, h3⟩
  | cons k l ih =>
    intro st row h1 h2 h3
    by_cases hk : k = j
    · subst hk
      have hstep := stepRow_of_blank fetch st k row h1 h2
      have hget : (stepRow fetch st k).df.get? k =
          some { row with phone1 := "No URL" } := by
        rw [hstep]
        show (updateAt st.df k _).get? k = _
        rw [updateAt_get?_eq, h1]
        rfl
      have hcalls : ∀ u, (k, u) ∉ (stepRow fetch st k).calls := by
        intro u
        rw [hstep]
        exact h3 u
      obtain ⟨row', hr1, hr2, hr3, hr4, hr5, hr6, hr7⟩ :=
        ih (stepRow fetch st k) { row with phone1 := "No URL" } hget h2 hcalls
      refine ⟨row', hr1, hr2, hr3, hr4, ?_, ?_, hr7⟩
      · intro _
        by_cases hjl : k ∈ l
        · exact hr5 hjl
        · exact hr6 hjl
      · intro hn
        exact absurd (by simp) hn
    · have hjk : j ≠ k := fun he => hk he.symm
      have hget : (stepRow fetch st k).df.get? j = some row := by
        rw [stepRow_get?_ne fetch st k j hjk]
        exact h1
      have hcalls : ∀ u, (j, u) ∉ (stepRow fetch st k).calls := fun u hu =>
        h3 u (stepRow_calls_ne fetch st k j u hjk hu)
      obtain ⟨row', hr1, hr2, hr3, hr4, hr5, hr6, hr7⟩ :=
        ih (stepRow fetch st k) row hget h2 hcalls
      refine ⟨row', hr1, hr2, hr3, hr4, ?_, ?_, hr7⟩
      · intro hm
        rcases List.mem_cons.mp hm with heq | hm2
        · exact absurd heq.symm hk
        · exact hr5 hm2
      · intro hn
        exact hr6 (fun hjl => hn (by simp [hjl]))

/-- Unfolding of `process_excel_file` on a non-empty dataset. -/
theorem process_excel_file_of_ne_nil (fetch : Nat → String → RowOutcome)
    (df0 : List Row) (sr : Nat) (mr : Option Nat) (h : df0.isEmpty = false) :
    process_excel_file fetch df0 sr mr =
      { runRows fetch
          (List.range' (sr - 1) (endIndex df0.length (sr - 1) mr - (sr - 1)))
          ⟨df0, 0, [], []⟩ with
        saves := (runRows fetch
            (List.range' (sr - 1) (endIndex df0.length (sr - 1) mr - (sr - 1)))
            ⟨df0, 0, [], []⟩).saves ++
          [(runRows fetch
            (List.range' (sr - 1) (endIndex df0.length (sr - 1) mr - (sr - 1)))
            ⟨df0, 0, [], []⟩).df] } := by
  unfold process_excel_file
  rw [h]
  rfl

/-! ## Lemmas about the normalizer -/

theorem digitsOf_all_digit (s : String) : ∀ c ∈ digitsOf s, c.isDigit = true :=
  fun c hc => (List.mem_filter.mp hc).2

theorem matchesCanonical_of (d : List Char) (hlen : d.length = 10)
    (hall : ∀ c ∈ d, c.isDigit = true) :
    matchesCanonical
      (String.mk (d.take 2 ++ ' ' :: ((d.drop 2).take 4 ++ ' ' :: d.drop 6))) = true := by
  rcases d with _ | ⟨a0, d⟩; · simp at hlen
  rcases d with _ | ⟨a1, d⟩; · simp at hlen
  rcases d with _ | ⟨a2, d⟩; · simp at hlen
  rcases d with _ | ⟨a3, d⟩; · simp at hlen
  rcases d with _ | ⟨a4, d⟩; · simp at hlen
  rcases d with _ | ⟨a5, d⟩; · simp at hlen
  rcases d with _ | ⟨a6, d⟩; · simp at hlen
  rcases d with _ | ⟨a7, d⟩; · simp at hlen
  rcases d with _ | ⟨a8, d⟩; · simp at hlen
  rcases d with _ | ⟨a9, d⟩; · simp at hlen
  have hd : d = [] := by
    have : d.length = 0 := by simpa using hlen
    exact List.length_eq_zero.mp this
  subst hd
  show matchesCanonical (String.mk [a0, a1, ' ', a2, a3, a4, a5, ' ', a6, a7, a8, a9]) = true
  have h0 := hall a0 (by simp)
  have h1 := hall a1 (by simp)
  have h2 := hall a2 (by simp)
  have h3 := hall a3 (by simp)
  have h4 := hall a4 (by simp)
  have h5 := hall a5 (by simp)
  have h6 := hall a6 (by simp)
  have h7 := hall a7 (by simp)
  have h8 := hall a8 (by simp)
  have h9 := hall a9 (by simp)
  simp [matchesCanonical, h0, h1, h2, h3, h4, h5, h6, h7, h8, h9]

theorem digitsOf_canonical (d : List Char) (hall : ∀ c ∈ d, c.isDigit = true) :
    digitsOf (String.mk (d.take 2 ++ ' ' :: ((d.drop 2).take 4 ++ ' ' :: d.drop 6))) = d := by
  show (d.take 2 ++ ' ' :: ((d.drop 2).take 4 ++ ' ' :: d.drop 6)).filter
      (fun c => c.isDigit) = d
  have hsp : (' ' : Char).isDigit = false := by decide
  rw [List.filter_append, List.filter_cons, List.filter_append, List.filter_cons]
  simp only [hsp, Bool.false_eq_true, if_false, cond_false]
  rw [List.filter_eq_self.mpr (fun c hc => hall c (List.take_subset _ _ hc)),
    List.filter_eq_self.mpr
      (fun c hc => hall c (List.drop_subset _ _ (List.take_subset _ _ hc))),
    List.filter_eq_self.mpr (fun c hc => hall c (List.drop_subset _ _ hc))]
  have hmid : (d.drop 2).take 4 ++ d.drop 6 = d.drop 2 := by
    have h := List.take_append_drop 4 (d.drop 2)
    rw [List.drop_drop] at h
    simpa using h
  rw [hmid, List.take_append_drop]

/-- C1: `clean_phone` returns a canonical value iff the digit-only projection
of the input has length exactly 10; the value groups the digits 2-4-4 with
single spaces and matches `\d{2} \d{4} \d{4}`; any other digit count gives
`None` (and, being a total function, never an exception). -/
theorem clean_phone_spec (s : String) :
    ((clean_phone s).isSome ↔ (digitsOf s).length = 10) ∧
    ((digitsOf s).length ≠ 10 → clean_phone s = none) ∧
    ∀ v, clean_phone s = some v →
      v.toList =
        (digitsOf s).take 2 ++
          ' ' :: (((digitsOf s).drop 2).take 4 ++ ' ' :: (digitsOf s).drop 6) ∧
      matchesCanonical v = true := by
  by_cases h : (digitsOf s).length = 10
  · refine ⟨by simp [clean_phone, h], fun hne => absurd h hne, ?_⟩
    intro v hv
    simp only [clean_phone, h, if_true] at hv
    have hv' :
        v = String.mk ((digitsOf s).take 2 ++
          ' ' :: (((digitsOf s).drop 2).take 4 ++ ' ' :: (digitsOf s).drop 6)) := by
      exact (Option.some.injEq _ _ ▸ hv).symm
    subst hv'
    exact ⟨rfl, matchesCanonical_of (digitsOf s) h (digitsOf_all_digit s)⟩
  · refine ⟨by simp [clean_phone, h], fun _ => by simp [clean_phone, h], ?_⟩
    intro v hv
    simp [clean_phone, h] at hv

/-- Witness for C1 at a concrete input. -/
theorem clean_phone_spec_witness :
    clean_phone "9876543210" = some "98 7654 3210" ∧
      matchesCanonical "98 7654 3210" = true := by
  refine ⟨by decide, ?_⟩
  exact ((clean_phone_spec "9876543210").2.2 "98 7654 3210" (by decide)).2

/-- C9: `clean_phone` is idempotent on its own output: whenever it succeeds,
running it again on the returned canonical string returns that same string. -/
theorem clean_phone_idem (s v : String) (h : clean_phone s = some v) :
    clean_phone v = some v := by
  have h10 : (digitsOf s).length = 10 := by
    by_cases hl : (digitsOf s).length = 10
    · exact hl
    · simp [clean_phone, hl] at h
  simp only [clean_phone, h10, if_true] at h
  have hv :
      v = String.mk ((digitsOf s).take 2 ++
        ' ' :: (((digitsOf s).drop 2).take 4 ++ ' ' :: (digitsOf s).drop 6)) := by
    exact (Option.some.injEq _ _ ▸ h).symm
  subst hv
  have hd := digitsOf_canonical (digitsOf s) (digitsOf_all_digit s)
  simp only [clean_phone, hd, h10, if_true]

/-- Witness for C9 at a concrete input. -/
theorem clean_phone_idem_witness : clean_phone "98 7654 3210" = some "98 7654 3210" :=
  clean_phone_idem "9876543210" "98 7654 3210" (by decide)

/-! ## Lemmas about the widget loop -/

/-- A candidate the scan skips: `clean_phone` rejects it, or it normalizes
to a phone already accumulated. -/
def rejectedOrDup (acc : List String) (c : String) : Prop :=
  clean_phone c = none ∨ ∃ q, clean_phone c = some q ∧ q ∈ acc

theorem tierScan_not_mem (acc : List String) :
    ∀ cs p, tierScan acc cs = some p → p ∉ acc := by
  intro cs
  induction cs with
  | nil => intro p h; simp [tierScan] at h
  | cons c cs ih =>
    intro p h
    simp only [tierScan] at h
    match hc : clean_phone c with
    | some q =>
      rw [hc] at h
      by_cases hq : q ∈ acc
      · simp [hq] at h; exact ih p h
      · simp [hq] at h; exact h ▸ hq
    | none => rw [hc] at h; exact ih p h

theorem tierScan_eq_some_iff (acc : List String) (cs : List String) (p : String) :
    tierScan acc cs = some p ↔
      ∃ l1 c l2, cs = l1 ++ c :: l2 ∧ clean_phone c = some p ∧ p ∉ acc ∧
        ∀ c' ∈ l1, rejectedOrDup acc c' := by
  constructor
  · induction cs with
    | nil => intro h; simp [tierScan] at h
    | cons c cs ih =>
      intro h
      simp only [tierScan] at h
      match hc : clean_phone c with
      | some q =>
        rw [hc] at h
        by_cases hq : q ∈ acc
        · simp only [hq, if_true] at h
          obtain ⟨l1, c0, l2, rfl, h1, h2, h3⟩ := ih h
          refine ⟨c :: l1, c0, l2, rfl, h1, h2, ?_⟩
          intro c' hc'
          rcases List.mem_cons.mp hc' with rfl | hm
          · exact Or.inr ⟨q, hc, hq⟩
          · exact h3 c' hm
        · simp only [hq, if_false] at h
          obtain rfl : q = p := by simpa using h
          exact ⟨[], c, cs, rfl, hc, hq, by simp⟩
      | none =>
        rw [hc] at h
        obtain ⟨l1, c0, l2, rfl, h1, h2, h3⟩ := ih h
        refine ⟨c :: l1, c0, l2, rfl, h1, h2, ?_⟩
        intro c' hc'
        rcases List.mem_cons.mp hc' with rfl | hm
        · exact Or.inl hc
        · exact h3 c' hm
  · rintro ⟨l1, c, l2, rfl, h1, h2, h3⟩
    induction l1 with
    | nil => simp [tierScan, h1, h2]
    | cons c' l1 ih =>
      have hrd := h3 c' (by simp)
      have hrest : ∀ x ∈ l1, rejectedOrDup acc x := fun x hx => h3 x (by simp [hx])
      simp only [List.cons_append, tierScan]
      rcases hrd with hrd | ⟨q, hq1, hq2⟩
      · rw [hrd]; exact ih hrest
      · rw [hq1]; simp only [hq2, if_true]; exact ih hrest

theorem tierScan_eq_none_iff (acc : List String) (cs : List String) :
    tierScan acc cs = none ↔ ∀ c ∈ cs, rejectedOrDup acc c := by
  induction cs with
  | nil => simp [tierScan]
  | cons c cs ih =>
    simp only [tierScan]
    match hc : clean_phone c with
    | some q =>
      by_cases hq : q ∈ acc
      · simp only [hq, if_true]
        rw [ih]
        constructor
        · intro h x hx
          rcases List.mem_cons.mp hx with rfl | hm
          · exact Or.inr ⟨q, hc, hq⟩
          · exact h x hm
        · intro h x hx; exact h x (by simp [hx])
      · simp only [hq, if_false]
        constructor
        · intro h; exact absurd h (by simp)
        · intro h
          rcases h c (by simp) with h1 | ⟨q', hq1, hq2⟩
          · rw [h1] at hc; cases hc
          · rw [hq1] at hc
            obtain rfl : q' = q := by simpa using hc
            exact absurd hq2 hq
    | none =>
      rw [ih]
      constructor
      · intro h x hx
        rcases List.mem_cons.mp hx with rfl | hm
        · exact Or.inl hc
        · exact h x hm
      · intro h x hx; exact h x (by simp [hx])

theorem tierScan_append (acc : List String) (xs ys : List String) :
    tierScan acc (xs ++ ys) =
      match tierScan acc xs with
      | some p => some p
      | none => tierScan acc ys := by
  induction xs with
  | nil => simp [tierScan]
  | cons c xs ih =>
    simp only [List.cons_append, tierScan]
    match hc : clean_phone c with
    | some q =>
      by_cases hq : q ∈ acc
      · simp [hq, ih]
      · simp [hq]
    | none => simp [ih]

theorem processWidget_fst_cases (acc : List String) (w : Widget) :
    (processWidget acc w).1 = acc ∨
      ∃ p, p ∉ acc ∧ (processWidget acc w).1 = acc ++ [p] := by
  cases w with
  | broken => exact Or.inl rfl
  | ok t modal =>
    simp only [processWidget]
    by_cases he : hasEllipsis (strip t)
    · simp only [he, if_true]
      match modal with
      | none => exact Or.inl rfl
      | some o =>
        simp only [overlayExtract]
        match h1 : tierScan acc (telCands o) with
        | some p => exact Or.inr ⟨p, tierScan_not_mem acc _ p h1, rfl⟩
        | none =>
          match h2 : tierScan acc (boldCands o) with
          | some p => exact Or.inr ⟨p, tierScan_not_mem acc _ p h2, rfl⟩
          | none =>
            match h3 : tierScan acc (textCands o) with
            | some p => exact Or.inr ⟨p, tierScan_not_mem acc _ p h3, rfl⟩
            | none => exact Or.inl rfl
    · simp only [he, if_false]
      match clean_phone (strip t) with
      | some c =>
        simp only [addIfNew]
        by_cases hc : c ∈ acc
        · simp [hc]
        · simp only [hc, if_false]
          exact Or.inr ⟨c, hc, rfl⟩
      | none => exact Or.inl rfl

theorem extractLoopTr_fst_nodup (ws : List Widget) :
    ∀ acc : List String, acc.Nodup → (extractLoopTr ws acc).1.Nodup := by
  induction ws with
  | nil => intro acc h; exact h
  | cons w ws ih =>
    intro acc h
    simp only [extractLoopTr]
    by_cases hl : 2 ≤ acc.length
    · simp only [hl, if_true]; exact h
    · simp only [hl, if_false]
      refine ih _ ?_
      rcases processWidget_fst_cases acc w with hc | ⟨p, hp, hc⟩
      · rw [hc]; exact h
      · rw [hc]
        simp [List.nodup_append, h, hp]

theorem extractLoopTr_break (ws : List Widget) (acc : List String)
    (h : 2 ≤ acc.length) : (extractLoopTr ws acc).1 = acc := by
  cases ws with
  | nil => rfl
  | cons w ws => simp [extractLoopTr, h]

/-- C2: `extract_phones` returns between 0 and 2 phones and the returned list
has no duplicate canonical strings; as a loop invariant, each widget step
either leaves the accumulated list unchanged or appends to its end (so
discovery order is preserved) and keeps it duplicate-free. -/
theorem extract_phones_invariants (ws : List Widget) :
    (extract_phones ws).length ≤ 2 ∧ (extract_phones ws).Nodup ∧
      ∀ acc w, acc.Nodup →
        (processWidget acc w).1.Nodup ∧ ∃ t, (processWidget acc w).1 = acc ++ t := by
  refine ⟨?_, ?_, ?_⟩
  · simp only [extract_phones, List.length_take]
    omega
  · exact List.Nodup.sublist (List.take_sublist _ _)
      (extractLoopTr_fst_nodup ws [] (by simp))
  · intro acc w h
    rcases processWidget_fst_cases acc w with hc | ⟨p, hp, hc⟩
    · exact ⟨by rw [hc]; exact h, [], by simp [hc]⟩
    · refine ⟨?_, [p], hc⟩
      rw [hc]
      simp [List.nodup_append, h, hp]

/-- Witness for C2 at a concrete input. -/
theorem extract_phones_invariants_witness :
    (extract_phones [Widget.ok "9876543210" none]).length ≤ 2 ∧
      ∃ t, (processWidget ["98 7654 3210"] Widget.broken).1 = ["98 7654 3210"] ++ t :=
  ⟨(extract_phones_invariants [Widget.ok "9876543210" none]).1,
    ((extract_phones_invariants []).2.2 ["98 7654 3210"] Widget.broken (by simp)).2⟩

/-- C3: inside a revealed overlay the candidates are consulted in the fixed
priority tel links, bold text, free-text scan — equivalently, the first
successfully-normalizing non-duplicate candidate of the concatenated priority
list wins, so once a tier yields a phone the later tiers are not consulted;
`tierScan` accepts exactly the first candidate that normalizes to a new
phone, and a tier is exhausted (moving on to the next tier) exactly when all
its candidates are rejected or duplicates. -/
theorem overlayExtract_priority (acc : List String) (o : Overlay) :
    (overlayExtract acc o =
      match tierScan acc (telCands o ++ boldCands o ++ textCands o) with
      | some p => acc ++ [p]
      | none => acc) ∧
    (∀ cs p, tierScan acc cs = some p ↔
      ∃ l1 c l2, cs = l1 ++ c :: l2 ∧ clean_phone c = some p ∧ p ∉ acc ∧
        ∀ c' ∈ l1, rejectedOrDup acc c') ∧
    (∀ cs, tierScan acc cs = none ↔ ∀ c ∈ cs, rejectedOrDup acc c) := by
  refine ⟨?_, fun cs p => tierScan_eq_some_iff acc cs p, fun cs => tierScan_eq_none_iff acc cs⟩
  rw [List.append_assoc, tierScan_append, tierScan_append]
  simp only [overlayExtract]
  match tierScan acc (telCands o) with
  | some p => rfl
  | none =>
    match tierScan acc (boldCands o) with
    | some p => rfl
    | none =>
      match tierScan acc (textCands o) with
      | some p => rfl
      | none => rfl

/-- Witness for C3 at a concrete overlay: the tel-link tier wins even though
the later tiers also hold matches. -/
theorem overlayExtract_priority_witness :
    overlayExtract [] ⟨["tel:9123456780"], ["11 1111 1111"], "22 2222 2222"⟩ =
      [] ++ ["91 2345 6780"] := by
  have h := (overlayExtract_priority []
    ⟨["tel:9123456780"], ["11 1111 1111"], "22 2222 2222"⟩).1
  rw [h]
  decide

theorem get?_replicate_of_lt {α : Type} (a : α) (n k : Nat) (h : k < n) :
    (List.replicate n a).get? k = some a := by
  induction n generalizing k with
  | zero => omega
  | succ n ih =>
    match k with
    | 0 => rfl
    | k + 1 =>
      have : k < n := by omega
      simpa [List.replicate] using ih k this

/-- C4: a widget whose displayed text has no truncation marker follows the
visible path: no reveal event is performed (the trigger is neither located
nor activated and no overlay opens) — in a full engine run its event trace is
empty — and its displayed text is normalized directly. -/
theorem visible_no_reveal (acc : List String) (t : String) (modal : Option Overlay)
    (h : hasEllipsis (strip t) = false) :
    (processWidget acc (Widget.ok t modal)).2 = [] ∧
    (processWidget acc (Widget.ok t modal)).1 =
      (match clean_phone (strip t) with
       | some c => addIfNew acc c
       | none => acc) ∧
    ∀ ws k, ws.get? k = some (Widget.ok t modal) →
      (extractLoopTr ws []).2.get? k = some [] := by
  have hstep : ∀ acc' : List String,
      processWidget acc' (Widget.ok t modal) =
        ((match clean_phone (strip t) with
          | some c => addIfNew acc' c
          | none => acc'), []) := by
    intro acc'
    simp only [processWidget, h, Bool.false_eq_true, if_false]
    match clean_phone (strip t) with
    | some c => rfl
    | none => rfl
  refine ⟨by rw [hstep acc], by rw [hstep acc], ?_⟩
  have main : ∀ ws : List Widget, ∀ acc' : List String, ∀ k,
      ws.get? k = some (Widget.ok t modal) →
      (extractLoopTr ws acc').2.get? k = some [] := by
    intro ws
    induction ws with
    | nil => intro acc' k hk; simp at hk
    | cons w ws ih =>
      intro acc' k hk
      have hklen : k < ws.length + 1 := by
        by_contra hk2
        rw [List.get?_eq_none.mpr (by simpa using hk2)] at hk
        cases hk
      simp only [extractLoopTr]
      by_cases hl : 2 ≤ acc'.length
      · simp only [hl, if_true]
        exact get?_replicate_of_lt [] (ws.length + 1) k hklen
      · simp only [hl, if_false]
        match k with
        | 0 =>
          have hw : w = Widget.ok t modal := by simpa using hk
          subst hw
          simp [hstep acc']
        | k + 1 =>
          have hk' : ws.get? k = some (Widget.ok t modal) := by simpa using hk
          simpa using ih _ k hk'
  intro ws k hk
  exact main ws [] k hk

/-- Witness for C4 at a concrete input. -/
theorem visible_no_reveal_witness :
    (processWidget [] (Widget.ok "9876543210" none)).2 = [] ∧
      (extractLoopTr [Widget.ok "9876543210" none] []).2.get? 0 = some [] := by
  have h := visible_no_reveal [] "9876543210" none (by decide)
  exact ⟨h.1, h.2.2 [Widget.ok "9876543210" none] 0 (by decide)⟩

/-- C5: a hidden widget whose modal never appears (the bounded wait times
out) contributes nothing and does not abort the task: the engine's result on
a widget list containing such a widget equals its result with that widget
removed, so the remaining widgets still contribute their phones. -/
theorem extract_notfound_skip (ws1 ws2 : List Widget) (t : String)
    (h : hasEllipsis (strip t) = true) :
    extract_phones (ws1 ++ Widget.ok t none :: ws2) = extract_phones (ws1 ++ ws2) := by
  have hstep : ∀ acc : List String,
      processWidget acc (Widget.ok t none) =
        (acc, [Event.locateTrigger, Event.activateTrigger]) := by
    intro acc
    simp only [processWidget, h, if_true]
  have main : ∀ ws1 : List Widget, ∀ acc : List String,
      (extractLoopTr (ws1 ++ Widget.ok t none :: ws2) acc).1 =
        (extractLoopTr (ws1 ++ ws2) acc).1 := by
    intro ws1
    induction ws1 with
    | nil =>
      intro acc
      simp only [List.nil_append, extractLoopTr]
      by_cases hl : 2 ≤ acc.length
      · simp only [hl, if_true]
        rw [extractLoopTr_break ws2 acc hl]
      · simp only [hl, if_false]
        rw [hstep acc]
    | cons w ws1 ih =>
      intro acc
      simp only [List.cons_append, extractLoopTr]
      by_cases hl : 2 ≤ acc.length
      · simp only [hl, if_true]
      · simp only [hl, if_false]
        exact ih _
  simp only [extract_phones]
  rw [main ws1 []]

/-- Witness for C5 at a concrete input: the timed-out widget is skipped and
the neighbouring widgets' phones are returned. -/
theorem extract_notfound_skip_witness :
    extract_phones [Widget.ok "9876543210" none, Widget.ok "12 3456 ..." none,
        Widget.ok "1234567890" none] =
      extract_phones [Widget.ok "9876543210" none, Widget.ok "1234567890" none] :=
  extract_notfound_skip [Widget.ok "9876543210" none] [Widget.ok "1234567890" none]
    "12 3456 ..." (by decide)

/-- C6 counterexample: for the schemeless value `"/example.com"` the URL
passed to the engine is not the original value prefixed with `https://` —
the leading slash is stripped first. -/
theorem navUrl_not_original :
    navUrl "/example.com" = "https://example.com" ∧
      navUrl "/example.com" ≠ "https://" ++ "/example.com" := by
  exact ⟨by decide, by decide⟩

/-- C6 (amended): for every non-blank URL cell the engine is called exactly
once, on `navUrl u`; a value starting with `http` is passed unchanged, and
any other value is passed as `https://` plus the value with its leading `/`
characters removed. -/
theorem navUrl_amended (fetch : Nat → String → RowOutcome) (st : RunState) (i : Nat)
    (row : Row) (u : String) (h0 : st.df.get? i = some row) (h1 : row.url = some u)
    (hu : u ≠ "") :
    (stepRow fetch st i).calls = st.calls ++ [(i, navUrl u)] ∧
    (startsHttp u = true → navUrl u = u) ∧
    (startsHttp u = false →
      navUrl u = "https://" ++ String.mk (u.toList.dropWhile (fun c => c = '/'))) := by
  refine ⟨?_, ?_, ?_⟩
  · rcases h2 : fetch i (navUrl u) with ps | m
    · rw [stepRow_of_phones fetch st i row u ps h0 h1 hu h2]
    · rw [stepRow_of_err fetch st i row u m h0 h1 hu h2]
  · intro h; simp [navUrl, h]
  · intro h; simp [navUrl, h]

/-- Witness for the amended C6 at a concrete input. -/
theorem navUrl_amended_witness :
    (stepRow (fun _ _ => RowOutcome.phones [])
        ⟨[⟨some "/example.com", "", "", []⟩], 0, [], []⟩ 0).calls =
      [] ++ [(0, navUrl "/example.com")] := by
  have h := navUrl_amended (fun _ _ => RowOutcome.phones [])
    ⟨[⟨some "/example.com", "", "", []⟩], 0, [], []⟩ 0
    ⟨some "/example.com", "", "", []⟩ "/example.com" rfl rfl (by decide)
  exact h.1

/-- C7: a row whose URL cell is blank or missing gets the `"No URL"` sentinel
in its first phone field, is never handed to the extraction engine, and the
run still completes with the remaining rows processed (its Phone2 cell keeps
its prior value). -/
theorem blank_row_sentinel (fetch : Nat → String → RowOutcome) (df0 : List Row)
    (sr : Nat) (mr : Option Nat) (i : Nat) (row : Row) (hsr : 1 ≤ sr)
    (hrow : df0.get? i = some row) (hblank : isBlankUrl row.url = true)
    (hlo : sr - 1 ≤ i) (hhi : i < endIndex df0.length (sr - 1) mr) :
    ∃ row', (process_excel_file fetch df0 sr mr).df.get? i = some row' ∧
      row'.phone1 = "No URL" ∧ row'.phone2 = row.phone2 ∧
      ∀ u, (i, u) ∉ (process_excel_file fetch df0 sr mr).calls := by
  have hempty : df0.isEmpty = false := by
    cases df0 with
    | nil => simp at hrow
    | cons r rs => rfl
  rw [process_excel_file_of_ne_nil fetch df0 sr mr hempty]
  have hmem : i ∈ List.range' (sr - 1) (endIndex df0.length (sr - 1) mr - (sr - 1)) := by
    rw [List.mem_range'_1]
    exact ⟨hlo, by omega⟩
  obtain ⟨row', h1, h2, h3, h4, h5, h6, h7⟩ :=
    runRows_blank fetch i
      (List.range' (sr - 1) (endIndex df0.length (sr - 1) mr - (sr - 1)))
      ⟨df0, 0, [], []⟩ row hrow hblank (by simp)
  exact ⟨row', h1, h5 hmem, h3, h7⟩

/-- Witness for C7 at a concrete dataset. -/
theorem blank_row_sentinel_witness :
    ∃ row', (process_excel_file (fun _ _ => RowOutcome.phones [])
        [⟨none, "", "keep", ["o"]⟩] 1 none).df.get? 0 = some row' ∧
      row'.phone1 = "No URL" ∧ row'.phone2 = "keep" ∧
      ∀ u, (0, u) ∉ (process_excel_file (fun _ _ => RowOutcome.phones [])
        [⟨none, "", "keep", ["o"]⟩] 1 none).calls :=
  blank_row_sentinel (fun _ _ => RowOutcome.phones []) [⟨none, "", "keep", ["o"]⟩]
    1 none 0 ⟨none, "", "keep", ["o"]⟩ (by decide) rfl rfl (by decide) (by decide)

/-- C8: on a non-empty dataset the run always ends with a final save of the
final dataset, and along any run of the row loop the number of checkpoint
saves equals `processed_count / 10` — so at most 9 processed rows are ever
unpersisted. -/
theorem checkpoint_saves (fetch : Nat → String → RowOutcome) (df0 : List Row)
    (sr : Nat) (mr : Option Nat) (h0 : df0.isEmpty = false) :
    ((process_excel_file fetch df0 sr mr).saves.getLast? =
      some (process_excel_file fetch df0 sr mr).df) ∧
    ∀ idxs : List Nat,
      (runRows fetch idxs ⟨df0, 0, [], []⟩).saves.length =
        (runRows fetch idxs ⟨df0, 0, [], []⟩).processed / 10 ∧
      (runRows fetch idxs ⟨df0, 0, [], []⟩).processed -
        10 * (runRows fetch idxs ⟨df0, 0, [], []⟩).saves.length ≤ 9 := by
  constructor
  · rw [process_excel_file_of_ne_nil fetch df0 sr mr h0]
    exact List.getLast?_concat _
  · intro idxs
    have h := runRows_saves_inv fetch idxs ⟨df0, 0, [], []⟩ (by simp)
    exact ⟨h, by omega⟩

/-- Witness for C8 at a concrete dataset. -/
theorem checkpoint_saves_witness :
    (process_excel_file (fun _ _ => RowOutcome.phones ["98 7654 3210"])
        [⟨some "a", "", "", []⟩] 1 none).saves.getLast? =
      some (process_excel_file (fun _ _ => RowOutcome.phones ["98 7654 3210"])
        [⟨some "a", "", "", []⟩] 1 none).df :=
  (checkpoint_saves (fun _ _ => RowOutcome.phones ["98 7654 3210"])
    [⟨some "a", "", "", []⟩] 1 none rfl).1

/-- C10: all dataset writes are confined to the phone columns of rows inside
the processed window `[start_row - 1, end_index)`: rows outside the window
are unchanged, the URL cell and the other columns of every row are never
rewritten, and a blank-URL row additionally keeps its Phone2 value. -/
theorem frame_confinement (fetch : Nat → String → RowOutcome) (df0 : List Row)
    (sr : Nat) (mr : Option Nat) (hsr : 1 ≤ sr) :
    (∀ j, (j < sr - 1 ∨ endIndex df0.length (sr - 1) mr ≤ j) →
      (process_excel_file fetch df0 sr mr).df.get? j = df0.get? j) ∧
    (∀ j row, df0.get? j = some row →
      ∃ row', (process_excel_file fetch df0 sr mr).df.get? j = some row' ∧
        row'.url = row.url ∧ row'.others = row.others) ∧
    (∀ j row, df0.get? j = some row → isBlankUrl row.url = true →
      ∃ row', (process_excel_file fetch df0 sr mr).df.get? j = some row' ∧
        row'.phone2 = row.phone2 ∧ row'.url = row.url ∧ row'.others = row.others) := by
  cases hemp : df0.isEmpty with
  | true =>
    have hdf : process_excel_file fetch df0 sr mr = ⟨df0, 0, [], []⟩ := by
      unfold process_excel_file
      rw [if_pos hemp]
    refine ⟨fun j _ => by rw [hdf], fun j row h => ⟨row, by rw [hdf]; exact h, rfl, rfl⟩,
      fun j row h _ => ⟨row, by rw [hdf]; exact h, rfl, rfl, rfl⟩⟩
  | false =>
    rw [process_excel_file_of_ne_nil fetch df0 sr mr hemp]
    refine ⟨?_, ?_, ?_⟩
    · intro j hj
      apply runRows_get?_ne
      intro k hk
      rw [List.mem_range'_1] at hk
      omega
    · intro j row h
      exact runRows_frame fetch j _ ⟨df0, 0, [], []⟩ row h
    · intro j row h hb
      obtain ⟨row', h1, h2, h3, h4, h5, h6, h7⟩ :=
        runRows_blank fetch j
          (List.range' (sr - 1) (endIndex df0.length (sr - 1) mr - (sr - 1)))
          ⟨df0, 0, [], []⟩ row h hb (by simp)
      exact ⟨row', h1, h3, h2, h4⟩

/-- Witness for C10 at a concrete dataset: the row before the processed
window is untouched. -/
theorem frame_confinement_witness :
    (process_excel_file (fun _ _ => RowOutcome.phones ["98 7654 3210"])
        [⟨some "a", "", "", ["z"]⟩, ⟨some "b", "", "", []⟩] 2 none).df.get? 0 =
      some ⟨some "a", "", "", ["z"]⟩ := by
  have h := (frame_confinement (fun _ _ => RowOutcome.phones ["98 7654 3210"])
    [⟨some "a", "", "", ["z"]⟩, ⟨some "b", "", "", []⟩] 2 none (by decide)).1 0
    (Or.inl (by decide))
  rw [h]
  rfl

/-! ## Evaluation checks of the embedding on the spec's worked examples -/

theorem eval_clean_phone_ten : clean_phone "9876543210" = some "98 7654 3210" := by decide

theorem eval_clean_phone_plus : clean_phone "+91 98765 43210" = none := by decide

theorem eval_clean_phone_dashes : clean_phone "123-4567-890" = some "12 3456 7890" := by decide

theorem eval_findall : findall "tel 91 2345 6780 x".toList = ["91 2345 6780"] := by decide

theorem eval_extract_visible :
    extract_phones [Widget.ok " 98 7654 3210 " none] = ["98 7654 3210"] := by decide

theorem eval_extract_tel_link :
    extract_phones [Widget.ok "33 1234 ..." (some ⟨["tel:9123456780"], [], ""⟩)] =
      ["91 2345 6780"] := by decide

theorem eval_extract_empty : extract_phones [] = [] := by decide

theorem eval_extract_dedup :
    extract_phones [Widget.ok "9876543210" none, Widget.ok "9876543210" none,
      Widget.ok "33 1234 ..." none] = ["98 7654 3210"] := by decide

theorem eval_blank_row :
    (process_excel_file (fun _ _ => RowOutcome.phones ["98 7654 3210"])
      [⟨some "a.example", "", "", []⟩, ⟨none, "", "x", ["k"]⟩] 1 none).df =
      [⟨some "a.example", "98 7654 3210", "", []⟩, ⟨none, "No URL", "x", ["k"]⟩] := by decide
